import Mathlib

/-!
Verification of the DevMind query-time retrieval and resilience core.

This file gives a shallow embedding, in Lean 4, of the components of the
DevMind repository that the checked claims are about:

* `devmind/search/resilient_search.py` — the resilient search façade
  (`ResilientSearchClient`): cache → vector → keyword fallback chain with a
  consecutive-failure circuit breaker.
* `devmind/llm/rate_limited_client.py` — the rate-limited generation client
  (`RateLimitedLLMClient`): trailing-60-second admission window, bounded
  queue, fallback.
* `devmind/retrieval/keyword_search.py` — the BM25 lexical index
  (`BM25Index`).
* `devmind/retrieval/reranker.py` — the rule-based reranker
  (`RuleBasedReranker`).
* `devmind/retrieval/filters.py` — the metadata result filter
  (`ResultFilter`).

Conventions of the embedding:

* Python `float` is modelled as `ℚ` (exact rationals); `math.log` of the BM25
  formula is modelled as an explicit function parameter `logf : ℚ → ℚ`, since
  the natural logarithm is not executable; theorems that need it assume only
  the property of `ln` they use (positivity on `(1, ∞)`).
* Python dictionaries keyed by chunk id are modelled as association lists
  with last-write-wins lookup; Python `set` iteration order is unspecified,
  so sets are canonicalised to first-occurrence order (`dedupFirst`) — all
  proved order-sensitive properties are insensitive to tie order.
* `async` functions are modelled as pure state-passing functions; each
  awaited collaborator call (cache, vector backend, keyword backend, health
  probe) becomes an explicit argument describing that call's outcome,
  with an `exn` constructor for a raised exception.
* Python truthiness tests (`if cached:`, `if criteria.file_types:`,
  `if criteria.max_results and ...`) are embedded exactly: `None`, empty
  strings, empty lists and `0` are falsy.
-/

namespace DevMind

/-- ASCII lowercasing, character by character: Python `str.lower()` on the
ASCII strings this system handles.  (Implemented over `List Char` so that
concrete instances reduce inside `decide`.) -/
def toLowerStr (s : String) : String :=
  String.mk (s.toList.map Char.toLower)

/-- Split a character list at every occurrence of `sep`, keeping empty
segments: Python `str.split(sep)` for a single-character separator.
`acc` is the reversed current segment. -/
def splitOnCharAux (sep : Char) : List Char → List Char → List (List Char)
  | [], acc => [acc.reverse]
  | c :: cs, acc =>
      if c = sep then acc.reverse :: splitOnCharAux sep cs []
      else splitOnCharAux sep cs (c :: acc)

/-- Python `pat in s` substring containment on character lists. -/
def isInfixOfB (pat : List Char) : List Char → Bool
  | [] => pat.isEmpty
  | c :: rest => List.isPrefixOf pat (c :: rest) || isInfixOfB pat rest

/-- A search result flowing through the resilient search façade
(`resilient_search.py`).  The façade only reads/writes the `metadata` dict
keys `"search_mode"` and `"degraded"` of a result object produced by the
vector/keyword backends, so the embedding models exactly those two dict
entries, with `none` standing for an absent key, plus an opaque payload. -/
structure RSResult where
  content : String
  searchMode : Option String := none
  degraded : Option Bool := none
deriving DecidableEq

/-- Mutable state of `ResilientSearchClient`: the `_qdrant_healthy` flag and
the `_consecutive_failures` counter (`__init__`, lines 50–51).  The threshold
`_max_failures_before_disable` is the constant 3 set in `__init__` and is
hardcoded where it is read. -/
structure FacadeState where
  qdrantHealthy : Bool
  consecutiveFailures : ℕ
deriving DecidableEq

namespace ResilientSearchClient

/-- Initial state from `ResilientSearchClient.__init__`. -/
def init : FacadeState := { qdrantHealthy := true, consecutiveFailures := 0 }

/-- Outcome of the awaited `self.cache.get(key)` call: a cached value,
a miss (`None`), or a raised exception. -/
inductive CacheResp where
  | hit (rs : List RSResult)
  | miss
  | exn
deriving DecidableEq

/-- Outcome of the awaited `self.vector.search(...)` call: results or a
raised exception. -/
inductive VecResp where
  | ok (rs : List RSResult)
  | exn
deriving DecidableEq

/-- Outcome of the awaited `self.vector.health_check()` call. -/
inductive ProbeResp where
  | ok (healthy : Bool)
  | exn
deriving DecidableEq

/-- `ResilientSearchClient._try_cache` (lines 110–116): return the cached
value; on exception, log and return `None`. -/
def tryCache (cr : CacheResp) : Option (List RSResult) :=
  match cr with
  | .hit rs => some rs
  | .miss => none
  | .exn => none

/-- `ResilientSearchClient._set_cache` (lines 118–123): attempt the cache
write; an exception is caught and logged, so both outcomes return unit. -/
def setCache (_writeOk : Bool) : Unit := ()

/-- `ResilientSearchClient._try_vector_search` (lines 125–158): on success
return the results with the state unchanged; on exception increment
`_consecutive_failures` and, once it reaches `_max_failures_before_disable`
(= 3), clear `_qdrant_healthy`; return `None`. -/
def tryVectorSearch (s : FacadeState) (vr : VecResp) :
    Option (List RSResult) × FacadeState :=
  match vr with
  | .ok rs => (some rs, s)
  | .exn =>
      let cf := s.consecutiveFailures + 1
      let healthy := if 3 ≤ cf then false else s.qdrantHealthy
      (none, { qdrantHealthy := healthy, consecutiveFailures := cf })

/-- The tagging loop of `ResilientSearchClient.search` (lines 102–106):
`r.metadata["search_mode"] = "keyword_fallback"; r.metadata["degraded"] = True`. -/
def tagDegraded (r : RSResult) : RSResult :=
  { r with searchMode := some "keyword_fallback", degraded := some true }

/-- Python truthiness of the cached value at `if cached:` (line 76): a
missing/failed read (`None`) and an empty list are falsy. -/
def cacheTruthy (cr : CacheResp) : Bool :=
  match tryCache cr with
  | some (_ :: _) => true
  | _ => false

/-- `ResilientSearchClient.search` (lines 54–108), as one query step.
Arguments `cr`, `vr`, `kw` are the outcomes of this query's awaited
collaborator calls (cache read, vector search, keyword search), and
`cacheWriteOk` is the outcome of the best-effort cache write; returns the
result list and the successor state.  The vector layer runs only when
`_qdrant_healthy`; a non-`None` vector result is returned after the cache
write-through and counter reset; otherwise the keyword results are tagged
as degraded and returned. -/
def search (s : FacadeState) (cr : CacheResp) (vr : VecResp)
    (kw : List RSResult) (cacheWriteOk : Bool) :
    List RSResult × FacadeState :=
  match tryCache cr with
  | some (r :: rs) => (r :: rs, s)
  | _ =>
    if s.qdrantHealthy then
      match tryVectorSearch s vr with
      | (some rs, s1) =>
          let _ := setCache cacheWriteOk
          (rs, { s1 with consecutiveFailures := 0 })
      | (none, s1) => (kw.map tagDegraded, s1)
    else
      (kw.map tagDegraded, s)

/-- `ResilientSearchClient.check_qdrant_health` (lines 160–181): probe the
vector backend; when the probe reports healthy while the façade was
unhealthy, reset the failure counter; then store the probe verdict in
`_qdrant_healthy`.  A probe exception marks the backend unhealthy. -/
def check_qdrant_health (s : FacadeState) (pr : ProbeResp) :
    Bool × FacadeState :=
  match pr with
  | .ok healthy =>
      let s1 :=
        if healthy ∧ ¬ s.qdrantHealthy then
          { s with consecutiveFailures := 0 }
        else s
      (healthy, { s1 with qdrantHealthy := healthy })
  | .exn => (false, { s with qdrantHealthy := false })

/-- The status record of `ResilientSearchClient.get_status` (lines 183–195). -/
structure Status where
  qdrantHealthy : Bool
  consecutiveFailures : ℕ
  cacheAvailable : Bool
  fallbackEnabled : Bool
deriving DecidableEq

/-- `ResilientSearchClient.get_status`: report the health flag, the failure
counter, the cache ping outcome, and the constant `fallback_enabled = True`. -/
def get_status (s : FacadeState) (cacheOk : Bool) : Status :=
  { qdrantHealthy := s.qdrantHealthy
    consecutiveFailures := s.consecutiveFailures
    cacheAvailable := cacheOk
    fallbackEnabled := true }

end ResilientSearchClient

namespace RateLimitedLLMClient

/-- `asyncio.Queue.full()` as used at line 138: a queue created with
`maxsize <= 0` is unbounded, so `full()` is `False`; otherwise `full()`
is `qsize() >= maxsize`. -/
def queueFull (maxsize qsize : ℕ) : Bool :=
  if maxsize ≤ 0 then false else maxsize ≤ qsize

/-- The prune loop of `RateLimitedLLMClient._can_send` (lines 184–191):
pop timestamps from the front of the deque while they are more than 60
seconds older than `now`. -/
def pruneWindow (now : ℚ) (w : List ℚ) : List ℚ :=
  w.dropWhile (fun t => decide (60 < now - t))

/-- `RateLimitedLLMClient._can_send`: after pruning, admission is allowed
when fewer than `max_rpm` timestamps remain in the window. -/
def can_send (now : ℚ) (maxRpm : ℕ) (w : List ℚ) : Bool :=
  (pruneWindow now w).length < maxRpm

/-- `RateLimitedLLMClient._send` (lines 198–201): record the current
timestamp in the window (the primary call itself is external). -/
def send (now : ℚ) (w : List ℚ) : List ℚ :=
  w ++ [now]

/-- One branch decision of `RateLimitedLLMClient.generate` (lines 119–167):
direct primary call when under the limit; else immediate fallback
(or a capacity error without fallback) when the queue is full; else the
request is enqueued and awaits the dispatcher or the timeout. -/
inductive GenPath where
  | primaryDirect
  | fallbackOnFull
  | errorQueueFull
  | enqueued
deriving DecidableEq

/-- The control flow of `RateLimitedLLMClient.generate` up to the point
where the request is either answered, rejected, or parked in the queue. -/
def generatePath (canSend : Bool) (hasFallback : Bool)
    (maxQueueSize qsize : ℕ) : GenPath :=
  if canSend then .primaryDirect
  else if queueFull maxQueueSize qsize then
    (if hasFallback then .fallbackOnFull else .errorQueueFull)
  else .enqueued

/-- Effect of `RateLimitedLLMClient.generate_stream` (lines 169–182) on the
rate window: one `_can_send` check, then zero or more `_can_send` checks
from the `_wait_for_capacity` polling loop — each such check only prunes
stale timestamps — and then the stream is read from the primary provider
without any call to `_send`.  `polls` is the sequence of clock readings at
which `_can_send` ran. -/
def generateStreamWindow (polls : List ℚ) (w : List ℚ) : List ℚ :=
  polls.foldl (fun acc p => pruneWindow p acc) w

/-- The `requests_last_minute` count of `RateLimitedLLMClient.get_status`
(lines 240–255): timestamps strictly younger than 60 seconds. -/
def recentRequests (now : ℚ) (w : List ℚ) : ℕ :=
  (w.filter (fun t => decide (now - t < 60))).length

/-- The `capacity_remaining` field of `get_status`. -/
def capacityRemaining (now : ℚ) (maxRpm : ℕ) (w : List ℚ) : ℤ :=
  (maxRpm : ℤ) - (recentRequests now w : ℤ)

/-- The `utilization` field of `get_status`. -/
def utilization (now : ℚ) (maxRpm : ℕ) (w : List ℚ) : ℚ :=
  (recentRequests now w : ℚ) / (maxRpm : ℚ)

end RateLimitedLLMClient

/-- The metadata dictionary attached to an indexed chunk, restricted to the
keys the core reads (`filters.py` reads `source_file`, `language`,
`start_line`, `end_line`, `section_type`, each via `metadata.get(key,
default)`); a field holding its Python default models an absent key. -/
structure Metadata where
  sourceFile : String := ""
  language : String := ""
  startLine : ℤ := 0
  endLine : ℤ := 0
  sectionType : String := ""
deriving DecidableEq, Inhabited

/-- `VectorSearchResult` (`vector_search.py`, lines 18–28). -/
structure VectorSearchResult where
  score : ℚ
  chunk_id : String
  content : String
  metadata : Metadata
  index_name : String
deriving DecidableEq

/-- `KeywordSearchResult` (`keyword_search.py`, lines 16–26). -/
structure KeywordSearchResult where
  score : ℚ
  chunk_id : String
  content : String
  metadata : Metadata
  matched_terms : List String
deriving DecidableEq

/-- `RerankedResult` (`reranker.py`, lines 16–29). -/
structure RerankedResult where
  score : ℚ
  chunk_id : String
  content : String
  metadata : Metadata
  vector_score : ℚ
  keyword_score : ℚ
  index_name : String := ""
  matched_terms : Option (List String) := none
deriving DecidableEq

/-- Canonical first-occurrence deduplication, used to give the Python
`set`/dict-key collections a deterministic order.  `seen` accumulates the
elements already emitted. -/
def dedupFirstAux : List String → List String → List String
  | [], _ => []
  | x :: xs, seen =>
      if x ∈ seen then dedupFirstAux xs seen
      else x :: dedupFirstAux xs (x :: seen)

/-- First-occurrence deduplication of a list of chunk ids. -/
def dedupFirst (l : List String) : List String :=
  dedupFirstAux l []

namespace RuleBasedReranker

/-- The weight state of `RuleBasedReranker.__init__` (lines 40–65): the
configured weights are kept as given unless their sum differs from 1 by
more than 0.01, in which case both are divided by the sum. -/
structure Weights where
  vector_weight : ℚ
  keyword_weight : ℚ
deriving DecidableEq

/-- `RuleBasedReranker.__init__`: weight validation and normalization. -/
def init (vector_weight keyword_weight : ℚ) : Weights :=
  let total := vector_weight + keyword_weight
  if 1 / 100 < |total - 1| then
    { vector_weight := vector_weight / total
      keyword_weight := keyword_weight / total }
  else
    { vector_weight := vector_weight, keyword_weight := keyword_weight }

/-- The dict comprehension `{r.chunk_id: r for r in vector_results}`
(line 88): last write wins. -/
def vectorMap : List VectorSearchResult → String → Option VectorSearchResult
  | [], _ => none
  | r :: rest, id =>
      match vectorMap rest id with
      | some r1 => some r1
      | none => if r.chunk_id = id then some r else none

/-- The dict comprehension `{r.chunk_id: r for r in keyword_results}`
(line 89): last write wins. -/
def keywordMap : List KeywordSearchResult → String → Option KeywordSearchResult
  | [], _ => none
  | r :: rest, id =>
      match keywordMap rest id with
      | some r1 => some r1
      | none => if r.chunk_id = id then some r else none

/-- The body of the per-chunk-id loop of `RuleBasedReranker.rerank`
(lines 97–125): fetch the two candidates, default each missing score to 0,
combine linearly, and fill the remaining fields from the primary
(vector-first) candidate. -/
def mergeOne (w : Weights) (vrs : List VectorSearchResult)
    (krs : List KeywordSearchResult) (id : String) : RerankedResult :=
  let vr := vectorMap vrs id
  let kr := keywordMap krs id
  let vector_score := (vr.map (fun r => r.score)).getD 0
  let keyword_score := (kr.map (fun r => r.score)).getD 0
  let combined := w.vector_weight * vector_score + w.keyword_weight * keyword_score
  let contentPrimary :=
    match vr with
    | some r => r.content
    | none => ((kr.map (fun r => r.content)).getD "")
  let metaPrimary :=
    match vr with
    | some r => r.metadata
    | none => ((kr.map (fun r => r.metadata)).getD default)
  let indexNamePrimary :=
    match vr with
    | some r => r.index_name
    | none => ""
  { score := combined
    chunk_id := id
    content := contentPrimary
    metadata := metaPrimary
    vector_score := vector_score
    keyword_score := keyword_score
    index_name := indexNamePrimary
    matched_terms := kr.map (fun r => r.matched_terms) }

/-- The stable descending sort `reranked.sort(key=lambda r: r.score,
reverse=True)` (line 128). -/
def sortByScoreDesc (l : List RerankedResult) : List RerankedResult :=
  l.mergeSort (fun a b => decide (b.score ≤ a.score))

/-- `RuleBasedReranker.rerank` (lines 67–131): union the chunk ids of both
candidate lists (a Python `set`, canonicalised here to first-occurrence
order), merge scores per id, and sort by combined score descending. -/
def rerank (w : Weights) (vrs : List VectorSearchResult)
    (krs : List KeywordSearchResult) : List RerankedResult :=
  let all_chunk_ids :=
    dedupFirst (vrs.map (fun r => r.chunk_id) ++ krs.map (fun r => r.chunk_id))
  sortByScoreDesc (all_chunk_ids.map (mergeOne w vrs krs))

/-- `RuleBasedReranker.rerank_vector_only` (lines 133–162): direct
pass-through of the vector candidates in input order. -/
def rerank_vector_only (vrs : List VectorSearchResult) : List RerankedResult :=
  vrs.map (fun r =>
    { score := r.score
      chunk_id := r.chunk_id
      content := r.content
      metadata := r.metadata
      vector_score := r.score
      keyword_score := 0
      index_name := r.index_name
      matched_terms := none })

end RuleBasedReranker

/-- `FilterCriteria` (`filters.py`, lines 16–36), with the Python defaults:
`None` for every optional criterion, `0.0` for `min_score`. -/
structure FilterCriteria where
  file_types : Option (List String) := none
  languages : Option (List String) := none
  path_pref : Option String := none
  path_excludes : Option (List String) := none
  min_score : ℚ := 0
  max_results : Option ℕ := none
  line_range : Option (ℤ × ℤ) := none
  section_types : Option (List String) := none
deriving DecidableEq

/-- Python truthiness of an optional list (`if criteria.file_types:` and
similar guards): `None` and `[]` are falsy. -/
def optListTruthy {α : Type} (o : Option (List α)) : Bool :=
  match o with
  | some (_ :: _) => true
  | _ => false

/-- Python truthiness of an optional string (`if criteria.path_prefix:`):
`None` and the empty string are falsy. -/
def optStrTruthy (o : Option String) : Bool :=
  match o with
  | some s => ¬ s = ""
  | none => false

/-- Python truthiness of `criteria.max_results` (`Optional[int]`):
`None` and `0` are falsy. -/
def optNatTruthy (o : Option ℕ) : Bool :=
  match o with
  | some n => decide (0 < n)
  | none => false

namespace ResultFilter

/-- `pathlib.Path(p).suffix` for the paths reaching
`_filter_by_file_type`: the extension (with leading dot) of the final path
component, empty when the last dot of that component is its first
character, its last character, or absent. -/
def pathSuffix (p : String) : String :=
  let name := (((splitOnCharAux '/' p.toList []).filter
    (fun s => ¬ s.isEmpty)).getLast?).getD []
  let parts := splitOnCharAux '.' name []
  let lastPart := (parts.getLast?).getD []
  if 2 ≤ parts.length ∧ ¬ lastPart.isEmpty ∧ lastPart.length + 1 < name.length
  then String.mk ('.' :: lastPart)
  else ""

/-- `str.lstrip('.')`: drop every leading dot. -/
def lstripDots (s : String) : String :=
  String.mk (s.toList.dropWhile (fun c => c = '.'))

/-- The per-result predicate of `ResultFilter._filter_by_score`
(lines 109–115): `r.score >= min_score`. -/
def scoreOk (minScore : ℚ) (r : RerankedResult) : Bool :=
  decide (minScore ≤ r.score)

/-- `ResultFilter._filter_by_score` (lines 109–115). -/
def filter_by_score (results : List RerankedResult) (minScore : ℚ) :
    List RerankedResult :=
  results.filter (scoreOk minScore)

/-- The per-result predicate of `ResultFilter._filter_by_file_type`
(lines 117–132): a result is kept when its source path is non-empty and its
lowercased extension — with or without the leading dot — is in the
allow-list. -/
def fileTypeOk (fileTypes : List String) (r : RerankedResult) : Bool :=
  let filePath := r.metadata.sourceFile
  if filePath = "" then false
  else
    let ext := toLowerStr (pathSuffix filePath)
    decide (ext ∈ fileTypes) || decide (lstripDots ext ∈ fileTypes)

/-- `ResultFilter._filter_by_file_type`. -/
def filter_by_file_type (results : List RerankedResult)
    (fileTypes : List String) : List RerankedResult :=
  results.filter (fileTypeOk fileTypes)

/-- The per-result predicate of `ResultFilter._filter_by_language`
(lines 134–143): case-insensitive membership in the allow-list. -/
def languageOk (languages : List String) (r : RerankedResult) : Bool :=
  decide (toLowerStr r.metadata.language ∈ languages.map (fun l => toLowerStr l))

/-- `ResultFilter._filter_by_language`. -/
def filter_by_language (results : List RerankedResult)
    (languages : List String) : List RerankedResult :=
  results.filter (languageOk languages)

/-- The per-result predicate of `ResultFilter._filter_by_path_prefix`
(lines 145–158): `file_path.startswith(path_prefix)`. -/
def pathPrefOk (pathPref : String) (r : RerankedResult) : Bool :=
  List.isPrefixOf pathPref.toList r.metadata.sourceFile.toList

/-- `ResultFilter._filter_by_path_prefix` (lines 145–158). -/
def filter_by_path_pref (results : List RerankedResult) (pathPref : String) :
    List RerankedResult :=
  results.filter (pathPrefOk pathPref)

/-- The per-result predicate of `ResultFilter._filter_by_path_exclude`
(lines 160–181): kept when no exclude pattern occurs as a substring of the
source path. -/
def pathExcludeOk (patterns : List String) (r : RerankedResult) : Bool :=
  patterns.all (fun pat => ! isInfixOfB pat.toList r.metadata.sourceFile.toList)

/-- `ResultFilter._filter_by_path_exclude`. -/
def filter_by_path_exclude (results : List RerankedResult)
    (patterns : List String) : List RerankedResult :=
  results.filter (pathExcludeOk patterns)

/-- The per-result overlap predicate of `ResultFilter._filter_by_line_range`
(lines 183–200): `start_line <= max_line and end_line >= min_line`. -/
def lineRangeOk (minLine maxLine : ℤ) (r : RerankedResult) : Bool :=
  decide (r.metadata.startLine ≤ maxLine) && decide (minLine ≤ r.metadata.endLine)

/-- `ResultFilter._filter_by_line_range`. -/
def filter_by_line_range (results : List RerankedResult)
    (lineRange : ℤ × ℤ) : List RerankedResult :=
  results.filter (lineRangeOk lineRange.1 lineRange.2)

/-- The per-result predicate of `ResultFilter._filter_by_section_type`
(lines 202–211). -/
def sectionTypeOk (sectionTypes : List String) (r : RerankedResult) : Bool :=
  decide (r.metadata.sectionType ∈ sectionTypes)

/-- `ResultFilter._filter_by_section_type`. -/
def filter_by_section_type (results : List RerankedResult)
    (sectionTypes : List String) : List RerankedResult :=
  results.filter (sectionTypeOk sectionTypes)

/-- One guarded filter stage of `ResultFilter.filter`: the stage's
`List.filter` runs only when its criterion is (Python-)truthy. -/
def condFilter (g : Bool) (p : RerankedResult → Bool)
    (l : List RerankedResult) : List RerankedResult :=
  if g then l.filter p else l

/-- The seven guarded predicate stages of `ResultFilter.filter`
(lines 73–100), in source order, before the result cap.  (The line-range
bounds are read out of the tuple only when `line_range` is truthy, i.e.
present; `(0, 0)` is a dummy for the untaken branch.) -/
def filterStages (results : List RerankedResult) (c : FilterCriteria) :
    List RerankedResult :=
  let f1 := condFilter (decide (0 < c.min_score)) (scoreOk c.min_score) results
  let f2 := condFilter (optListTruthy c.file_types)
    (fileTypeOk (c.file_types.getD [])) f1
  let f3 := condFilter (optListTruthy c.languages)
    (languageOk (c.languages.getD [])) f2
  let f4 := condFilter (optStrTruthy c.path_pref)
    (pathPrefOk (c.path_pref.getD "")) f3
  let f5 := condFilter (optListTruthy c.path_excludes)
    (pathExcludeOk (c.path_excludes.getD [])) f4
  let f6 := condFilter c.line_range.isSome
    (lineRangeOk (c.line_range.getD (0, 0)).1 (c.line_range.getD (0, 0)).2) f5
  condFilter (optListTruthy c.section_types)
    (sectionTypeOk (c.section_types.getD [])) f6

/-- The result cap of `ResultFilter.filter` (lines 102–104):
`if criteria.max_results and len(filtered) > criteria.max_results:
filtered = filtered[:criteria.max_results]`. -/
def capResults (c : FilterCriteria) (filtered : List RerankedResult) :
    List RerankedResult :=
  if optNatTruthy c.max_results ∧ (c.max_results.getD 0) < filtered.length then
    filtered.take (c.max_results.getD 0)
  else filtered

/-- `ResultFilter.filter` (lines 56–107): the predicate stages in source
order — the score floor first — followed by the result cap. -/
def filter (results : List RerankedResult) (c : FilterCriteria) :
    List RerankedResult :=
  capResults c (filterStages results c)

/-- `ResultFilter.deduplicate` with `by_content=False` (lines 258–268):
keep the first result for each chunk id. -/
def deduplicateById (results : List RerankedResult) : List RerankedResult :=
  go results []
where
  go : List RerankedResult → List String → List RerankedResult
    | [], _ => []
    | r :: rest, seen =>
        if r.chunk_id ∈ seen then go rest seen
        else r :: go rest (r.chunk_id :: seen)

/-- Concrete result used to exercise the filter: negative score (as a
weighted vector score can be), Python language, a `src/` path. -/
def c6result : RerankedResult :=
  { score := -1, chunk_id := "r1", content := "body",
    metadata := { sourceFile := "src/m.py", language := "python",
                  startLine := 3, endLine := 9, sectionType := "function" },
    vector_score := -1, keyword_score := 0 }

/-- Concrete criteria with `max_results = 0` and an empty language
allow-list: both are Python-falsy, so the code skips the cap and the
language stage. -/
def c6criteria : FilterCriteria :=
  { max_results := some 0, languages := some [], min_score := 0 }

end ResultFilter

namespace BM25

/-- Python `\w` on lowercased ASCII text: letters, digits, underscore. -/
def isWordChar (c : Char) : Bool :=
  c.isAlphanum || c = '_'

/-- Split a character list into the maximal runs of word characters, i.e.
`re.findall(r'\b\w+\b', text)`.  `acc` is the reversed current run. -/
def wordRunsAux : List Char → List Char → List String
  | [], acc => if acc.isEmpty then [] else [String.mk acc.reverse]
  | c :: cs, acc =>
      if isWordChar c then wordRunsAux cs (c :: acc)
      else if acc.isEmpty then wordRunsAux cs []
      else String.mk acc.reverse :: wordRunsAux cs []

/-- The stopword set of `BM25Index._tokenize` (`keyword_search.py`,
lines 119–124), copied from the source. -/
def stopwords : List String :=
  ["the", "a", "an", "and", "or", "but", "in", "on", "at", "to", "for",
   "of", "with", "by", "from", "as", "is", "was", "are", "were", "be",
   "been", "being", "have", "has", "had", "do", "does", "did", "this",
   "that", "these", "those", "it", "its", "will", "would", "should"]

/-- `BM25Index._tokenize` (lines 104–128): lowercase, extract word runs,
drop stopwords and single-character tokens. -/
def tokenize (text : String) : List String :=
  (wordRunsAux (text.toList.map Char.toLower) []).filter
    (fun t => ¬ t ∈ stopwords ∧ 1 < t.toList.length)

/-- One indexed chunk: the `(chunk_id, content, metadata)` tuple passed to
`BM25Index.add_documents`. -/
structure BM25Doc where
  chunk_id : String
  content : String
  metadata : Metadata := default
deriving DecidableEq

/-- State of `BM25Index`.  The dict-valued index structures
(`documents`, `metadata`, `inverted_index`, `doc_lengths`,
`term_frequencies`) are all deterministic functions of the sequence of
chunks ever passed to `add_documents`, so the embedding stores that
sequence (`docs`, in insertion order) and derives them; `avg_doc_length`
and `num_docs` are stored explicitly because `add_documents` maintains
them with its own (stateful) arithmetic. -/
structure BM25Index where
  k1 : ℚ
  b : ℚ
  docs : List BM25Doc
  avg_doc_length : ℚ
  num_docs : ℕ
deriving DecidableEq

/-- `BM25Index.__init__` (lines 36–61), with `k1`, `b` as configured. -/
def BM25Index.init (k1 b : ℚ) : BM25Index :=
  { k1 := k1, b := b, docs := [], avg_doc_length := 0, num_docs := 0 }

/-- `BM25Index.add_documents` (lines 63–102).  `total_length` is a local
variable that sums the token counts of this batch only, while `num_docs`
accumulates across calls; the stored average is their quotient whenever
`num_docs > 0`, exactly as in the source. -/
def add_documents (idx : BM25Index) (batch : List BM25Doc) : BM25Index :=
  let totalLength := (batch.map (fun d => (tokenize d.content).length)).sum
  let numDocs := idx.num_docs + batch.length
  { idx with
      docs := idx.docs ++ batch
      num_docs := numDocs
      avg_doc_length :=
        if 0 < numDocs then (totalLength : ℚ) / (numDocs : ℚ)
        else idx.avg_doc_length }

/-- The `self.documents` dict: content of the last-added chunk with a
given id. -/
def docContent : List BM25Doc → String → Option String
  | [], _ => none
  | d :: rest, id =>
      match docContent rest id with
      | some c => some c
      | none => if d.chunk_id = id then some d.content else none

/-- The `self.metadata` dict: metadata of the last-added chunk with a
given id. -/
def docMeta : List BM25Doc → String → Option Metadata
  | [], _ => none
  | d :: rest, id =>
      match docMeta rest id with
      | some m => some m
      | none => if d.chunk_id = id then some d.metadata else none

/-- The `self.doc_lengths` dict: token count of the last-added chunk with a
given id (each `add_documents` iteration assigns
`doc_lengths[chunk_id] = len(tokens)`, so the last write wins). -/
def docLen (docs : List BM25Doc) (id : String) : ℕ :=
  (tokenize ((docContent docs id).getD "")).length

/-- The `self.term_frequencies` defaultdict:
`term_frequencies[chunk_id][token]` is incremented once per occurrence of
`token` in every added chunk carrying that id, accumulating across
re-additions of the same id. -/
def termFreq (docs : List BM25Doc) (id tok : String) : ℕ :=
  ((docs.filter (fun d => d.chunk_id = id)).map
    (fun d => (tokenize d.content).count tok)).sum

/-- The `self.inverted_index` dict: the set of chunk ids some added version
of which contains the token (ids are added and never removed), in
first-occurrence order. -/
def postingIds (docs : List BM25Doc) (tok : String) : List String :=
  dedupFirst ((docs.filter (fun d => tok ∈ tokenize d.content)).map
    (fun d => d.chunk_id))

/-- The candidate set of `BM25Index.search` (lines 154–157): the union of
the posting sets of the query tokens, canonicalised to first-occurrence
order. -/
def searchCandidates (docs : List BM25Doc) (qtoks : List String) :
    List String :=
  dedupFirst (qtoks.flatMap (fun t => postingIds docs t))

/-- The `idf` computation of `BM25Index.search` (line 180), with `math.log`
passed in as `logf`. -/
def idfOf (logf : ℚ → ℚ) (numDocs df : ℕ) : ℚ :=
  logf (((numDocs : ℚ) - (df : ℚ) + 1 / 2) / ((df : ℚ) + 1 / 2) + 1)

/-- One term's BM25 score contribution (lines 171–187) for a document that
contains the term. -/
def scoreTerm (logf : ℚ → ℚ) (idx : BM25Index) (id tok : String) : ℚ :=
  let tf := (termFreq idx.docs id tok : ℚ)
  let df := (postingIds idx.docs tok).length
  let idf := idfOf logf idx.num_docs df
  let dl := (docLen idx.docs id : ℚ)
  let norm := 1 - idx.b + idx.b * (dl / idx.avg_doc_length)
  idf * (tf * (idx.k1 + 1)) / (tf + idx.k1 * norm)

/-- The matched query tokens of one document (the guard
`if token in self.term_frequencies[doc_id]`, line 172), in query order and
with query multiplicity, as accumulated into `matched_terms`. -/
def matchedOf (idx : BM25Index) (qtoks : List String) (id : String) :
    List String :=
  qtoks.filter (fun tok => decide (0 < termFreq idx.docs id tok))

/-- The per-document score loop of `BM25Index.search` (lines 167–189):
the sum of the contributions of the matched query tokens. -/
def docScore (logf : ℚ → ℚ) (idx : BM25Index) (qtoks : List String)
    (id : String) : ℚ :=
  ((matchedOf idx qtoks id).map (fun tok => scoreTerm logf idx id tok)).sum

/-- The stable descending sort
`sorted(scores.items(), key=lambda x: x[1], reverse=True)` (line 196). -/
def sortPairsDesc (l : List (String × ℚ)) : List (String × ℚ) :=
  l.mergeSort (fun a b => decide (b.2 ≤ a.2))

/-- The `scores` dict of `BM25Index.search` (lines 163–193), as
(chunk id, score) pairs in canonical candidate order: candidates whose
score is not positive are dropped (`if score > 0`). -/
def scoredList (logf : ℚ → ℚ) (idx : BM25Index) (qtoks : List String) :
    List (String × ℚ) :=
  (searchCandidates idx.docs qtoks).filterMap (fun id =>
    let s := docScore logf idx qtoks id
    if 0 < s then some (id, s) else none)

/-- The `ranked` list of `BM25Index.search` (line 196): sorted by score
descending, truncated to `top_k`. -/
def rankedList (logf : ℚ → ℚ) (idx : BM25Index) (qtoks : List String)
    (topK : ℕ) : List (String × ℚ) :=
  (sortPairsDesc (scoredList logf idx qtoks)).take topK

/-- The normalization step of `BM25Index.search` (lines 198–202): when the
ranking is non-empty and its top score is positive, divide every score by
the top score. -/
def normalizeRanked (ranked : List (String × ℚ)) : List (String × ℚ) :=
  match ranked.head? with
  | some p =>
      if 0 < p.2 then ranked.map (fun q : String × ℚ => (q.1, q.2 / p.2))
      else ranked
  | none => ranked

/-- `BM25Index.search` (lines 130–217): tokenize the query, collect
candidates, keep documents with positive score, rank, truncate to `top_k`,
normalize by the top score when positive, and build the result records. -/
def search (logf : ℚ → ℚ) (idx : BM25Index) (query : String) (topK : ℕ) :
    List KeywordSearchResult :=
  let qtoks := tokenize query
  if qtoks.isEmpty then []
  else
    if (searchCandidates idx.docs qtoks).isEmpty then []
    else
      (normalizeRanked (rankedList logf idx qtoks topK)).map
        (fun p : String × ℚ =>
          { score := p.2
            chunk_id := p.1
            content := (docContent idx.docs p.1).getD ""
            metadata := (docMeta idx.docs p.1).getD default
            matched_terms := matchedOf idx qtoks p.1 })

/-- Concrete chunk used by the search witness. -/
def bm25docA : BM25Doc := { chunk_id := "c1", content := "hello world" }

/-- Concrete chunk used by the search witness. -/
def bm25docB : BM25Doc := { chunk_id := "c2", content := "hello there friend" }

/-- Modelled from the spec (claim C7's reference statistic): the
average-document-length of the whole corpus — total token count of all
indexed documents divided by the number of indexed documents. -/
def specCorpusAvgLen (docs : List BM25Doc) : ℚ :=
  ((docs.map (fun d => (tokenize d.content).length)).sum : ℚ) /
    (docs.length : ℚ)

end BM25

/-! ## Theorems -/

open ResilientSearchClient in
/-- C1: each failed vector-search attempt increments the consecutive-failure
counter, and once the counter reaches 3 the façade is degraded (`status`
reports `qdrant_healthy == false`); a successful health probe while degraded
restores `qdrant_healthy == true` with the counter reset to 0; a successful
vector search resets the counter to 0. -/
theorem C1_circuit_breaker (s : FacadeState) (cr : CacheResp)
    (rs kw : List RSResult) (cacheOk writeOk : Bool) :
    ((tryVectorSearch s .exn).2.consecutiveFailures = s.consecutiveFailures + 1)
    ∧ (3 ≤ s.consecutiveFailures + 1 →
        (get_status (tryVectorSearch s .exn).2 cacheOk).qdrantHealthy = false)
    ∧ (s.qdrantHealthy = false →
        check_qdrant_health s (.ok true) =
          (true, { qdrantHealthy := true, consecutiveFailures := 0 })
        ∧ (get_status (check_qdrant_health s (.ok true)).2 cacheOk).qdrantHealthy = true
        ∧ (get_status (check_qdrant_health s (.ok true)).2 cacheOk).consecutiveFailures = 0)
    ∧ (cacheTruthy cr = false → s.qdrantHealthy = true →
        (search s cr (.ok rs) kw writeOk).2.consecutiveFailures = 0) := by
  refine ⟨rfl, ?_, ?_, ?_⟩
  · intro h3
    simp only [tryVectorSearch, get_status, if_pos h3]
  · intro hunh
    simp [check_qdrant_health, get_status, hunh]
  · intro hc hh
    unfold search
    cases cr with
    | hit rs0 =>
        cases rs0 with
        | nil => simp [tryCache, tryVectorSearch, hh]
        | cons r0 rs0 => simp [cacheTruthy, tryCache] at hc
    | miss => simp [tryCache, tryVectorSearch, hh]
    | exn => simp [tryCache, tryVectorSearch, hh]

open ResilientSearchClient in
/-- Witness for C1 at a concrete state: two prior failures, a third failed
attempt degrades the façade; a successful probe recovers it; a successful
search clears the counter. -/
theorem C1_circuit_breaker_witness :
    ((tryVectorSearch { qdrantHealthy := true, consecutiveFailures := 2 } .exn).2.consecutiveFailures = 2 + 1)
    ∧ (get_status (tryVectorSearch { qdrantHealthy := true, consecutiveFailures := 2 } .exn).2 true).qdrantHealthy = false
    ∧ check_qdrant_health { qdrantHealthy := false, consecutiveFailures := 3 } (.ok true) =
        (true, { qdrantHealthy := true, consecutiveFailures := 0 })
    ∧ (search { qdrantHealthy := true, consecutiveFailures := 2 } .miss
        (.ok [{ content := "r" }]) [] true).2.consecutiveFailures = 0 := by
  refine ⟨(C1_circuit_breaker _ .miss [] [] true true).1, ?_, ?_, ?_⟩
  · exact (C1_circuit_breaker { qdrantHealthy := true, consecutiveFailures := 2 }
      .miss [] [] true true).2.1 (by decide)
  · exact ((C1_circuit_breaker { qdrantHealthy := false, consecutiveFailures := 3 }
      .miss [] [] true true).2.2.1 rfl).1
  · exact (C1_circuit_breaker { qdrantHealthy := true, consecutiveFailures := 2 }
      .miss [{ content := "r" }] [] true true).2.2.2 rfl rfl

open ResilientSearchClient in
/-- C8: a cache-backend error never reaches the caller of the façade: a
cache read error behaves exactly like a cache miss (the search proceeds down
the fallback chain), and the outcome of the best-effort cache write changes
neither the returned results nor the successor state. -/
theorem C8_cache_errors_absorbed (s : FacadeState) (cr : CacheResp)
    (vr : VecResp) (kw : List RSResult) (w1 w2 : Bool) :
    tryCache .exn = none
    ∧ search s .exn vr kw w1 = search s .miss vr kw w1
    ∧ search s cr vr kw w1 = search s cr vr kw w2 := by
  exact ⟨rfl, rfl, rfl⟩

open ResilientSearchClient in
/-- C9: whenever a query is answered through the keyword fallback path —
because the façade is degraded, or because the vector attempt raised — every
returned result carries `degraded = True` and
`search_mode = "keyword_fallback"`; results answered from a (truthy) cache
hit or from a successful vector search are returned exactly as produced,
with no tag added. -/
theorem C9_degraded_tagging (s : FacadeState) (cr : CacheResp)
    (vr : VecResp) (kw : List RSResult) (writeOk : Bool) :
    (cacheTruthy cr = false → (s.qdrantHealthy = false ∨ vr = .exn) →
        (search s cr vr kw writeOk).1 = kw.map tagDegraded
        ∧ ∀ r ∈ (search s cr vr kw writeOk).1,
            r.degraded = some true ∧ r.searchMode = some "keyword_fallback")
    ∧ (∀ r0 rs0, cr = .hit (r0 :: rs0) →
        (search s cr vr kw writeOk).1 = r0 :: rs0)
    ∧ (∀ rs, cacheTruthy cr = false → s.qdrantHealthy = true → vr = .ok rs →
        (search s cr vr kw writeOk).1 = rs) := by
  refine ⟨?_, ?_, ?_⟩
  · intro hc hdeg
    have hout : (search s cr vr kw writeOk).1 = kw.map tagDegraded := by
      unfold search
      cases cr with
      | hit rs0 =>
          cases rs0 with
          | nil =>
              cases hdeg with
              | inl h => simp [tryCache, h]
              | inr h => subst h; cases hh : s.qdrantHealthy <;>
                  simp [tryCache, tryVectorSearch, hh]
          | cons r0 rs0 => simp [cacheTruthy, tryCache] at hc
      | miss =>
          cases hdeg with
          | inl h => simp [tryCache, h]
          | inr h => subst h; cases hh : s.qdrantHealthy <;>
              simp [tryCache, tryVectorSearch, hh]
      | exn =>
          cases hdeg with
          | inl h => simp [tryCache, h]
          | inr h => subst h; cases hh : s.qdrantHealthy <;>
              simp [tryCache, tryVectorSearch, hh]
    refine ⟨hout, ?_⟩
    intro r hr
    rw [hout] at hr
    rcases List.mem_map.mp hr with ⟨r0, _, rfl⟩
    exact ⟨rfl, rfl⟩
  · intro r0 rs0 hcr
    subst hcr
    rfl
  · intro rs hc hh hvr
    subst hvr
    unfold search
    cases cr with
    | hit rs0 =>
        cases rs0 with
        | nil => simp [tryCache, tryVectorSearch, hh]
        | cons r0 rs0 => simp [cacheTruthy, tryCache] at hc
    | miss => simp [tryCache, tryVectorSearch, hh]
    | exn => simp [tryCache, tryVectorSearch, hh]

open ResilientSearchClient in
/-- Witness for C9 at concrete inputs: a degraded façade tags the keyword
results; a cache hit and a vector success are returned untagged. -/
theorem C9_degraded_tagging_witness :
    ((search { qdrantHealthy := false, consecutiveFailures := 3 } .miss
        (.ok []) [{ content := "k" }] true).1 =
      [{ content := "k", searchMode := some "keyword_fallback", degraded := some true }])
    ∧ ((search { qdrantHealthy := true, consecutiveFailures := 0 }
        (.hit [{ content := "c" }]) (.ok []) [] true).1 = [{ content := "c" }])
    ∧ ((search { qdrantHealthy := true, consecutiveFailures := 0 } .miss
        (.ok [{ content := "v" }]) [] true).1 = [{ content := "v" }]) := by
  refine ⟨?_, ?_, ?_⟩
  · exact ((C9_degraded_tagging { qdrantHealthy := false, consecutiveFailures := 3 }
      .miss (.ok []) [{ content := "k" }] true).1 rfl (Or.inl rfl)).1
  · exact (C9_degraded_tagging { qdrantHealthy := true, consecutiveFailures := 0 }
      (.hit [{ content := "c" }]) (.ok []) [] true).2.1 { content := "c" } [] rfl
  · exact (C9_degraded_tagging { qdrantHealthy := true, consecutiveFailures := 0 }
      .miss (.ok [{ content := "v" }]) [] true).2.2 [{ content := "v" }] rfl rfl rfl

open RateLimitedLLMClient in
/-- C3 (divergence witness): with `max_queue_size = 0` the bounded queue is
an *unbounded* `asyncio.Queue` — `full()` is never `True` — so an over-limit
request (window of 1 fresh timestamp, `max_rpm = 1`) takes the `enqueued`
path of `generate`, not the immediate-fallback path the claim describes,
even though a fallback is configured. -/
theorem C3_queue_capacity_zero_enqueues :
    queueFull 0 0 = false
    ∧ can_send 100 1 [100] = false
    ∧ generatePath (can_send 100 1 [100]) true 0 0 = .enqueued
    ∧ ¬ generatePath (can_send 100 1 [100]) true 0 0 = .fallbackOnFull := by
  with_unfolding_all decide

open BM25 in
/-- C7 (divergence witness): after a second `add_documents` call the stored
`avg_doc_length` is the token count of the *second batch only* divided by
the cumulative document count — here `4 / 2 = 2` — while the corpus-wide
average document length of the claim is `(2 + 4) / 2 = 3`. -/
theorem C7_avg_len_diverges_on_second_bulk_load :
    (add_documents (add_documents (BM25Index.init (3/2) (3/4))
        [{ chunk_id := "c1", content := "hello world" }])
        [{ chunk_id := "c2", content := "alpha beta gamma delta" }]).avg_doc_length = 2
    ∧ specCorpusAvgLen (add_documents (add_documents (BM25Index.init (3/2) (3/4))
        [{ chunk_id := "c1", content := "hello world" }])
        [{ chunk_id := "c2", content := "alpha beta gamma delta" }]).docs = 3
    ∧ ¬ (add_documents (add_documents (BM25Index.init (3/2) (3/4))
        [{ chunk_id := "c1", content := "hello world" }])
        [{ chunk_id := "c2", content := "alpha beta gamma delta" }]).avg_doc_length =
      specCorpusAvgLen (add_documents (add_documents (BM25Index.init (3/2) (3/4))
        [{ chunk_id := "c1", content := "hello world" }])
        [{ chunk_id := "c2", content := "alpha beta gamma delta" }]).docs := by
  with_unfolding_all decide

/-- Dropping a prefix by a stronger predicate first does not change the
result of dropping by a weaker one. -/
theorem dropWhile_dropWhile_of_imp {α : Type} (p q : α → Bool)
    (h : ∀ x, p x = true → q x = true) (l : List α) :
    (l.dropWhile p).dropWhile q = l.dropWhile q := by
  induction l with
  | nil => rfl
  | cons x xs ih =>
      by_cases hp : p x = true
      · simp only [List.dropWhile_cons, hp, if_true, h x hp, ih]
      · have hx : p x = false := by simpa using hp
        simp [List.dropWhile_cons, hx]

/-- Dropping a prefix of elements that a filter would reject anyway does not
change the filter's output. -/
theorem filter_dropWhile_of_excl {α : Type} (p q : α → Bool)
    (h : ∀ x, p x = true → q x = false) (l : List α) :
    (l.dropWhile p).filter q = l.filter q := by
  induction l with
  | nil => rfl
  | cons x xs ih =>
      by_cases hp : p x = true
      · simp only [List.dropWhile_cons, hp, if_true, ih, List.filter_cons,
          h x hp, if_false]
        simp [h x hp]
      · have hx : p x = false := by simpa using hp
        simp [List.dropWhile_cons, hx]

namespace RateLimitedLLMClient

/-- Pruning stale timestamps at time `now` does not change the
`requests_last_minute` count observed at any time `now' ≥ now`. -/
theorem pruneWindow_preserves_recent (now now' : ℚ) (h : now ≤ now')
    (w : List ℚ) :
    recentRequests now' (pruneWindow now w) = recentRequests now' w := by
  unfold recentRequests pruneWindow
  rw [filter_dropWhile_of_excl]
  intro t ht
  simp only [decide_eq_true_eq] at ht
  simp only [decide_eq_false_iff_not, not_lt]
  linarith

/-- Pruning at time `now` then at a later time `now'` is the same as pruning
only at `now'`. -/
theorem pruneWindow_pruneWindow (now now' : ℚ) (h : now ≤ now')
    (w : List ℚ) :
    pruneWindow now' (pruneWindow now w) = pruneWindow now' w := by
  apply dropWhile_dropWhile_of_imp
  intro t ht
  simp only [decide_eq_true_eq] at ht
  simp only [decide_eq_true_eq]
  linarith

/-- The window after a `generate_stream` call is a sublist of the original
window: polling only removes stale timestamps, it records none. -/
theorem generateStreamWindow_sublist (polls w : List ℚ) :
    (generateStreamWindow polls w).Sublist w := by
  induction polls generalizing w with
  | nil => exact List.Sublist.refl w
  | cons p ps ih =>
      exact (ih (pruneWindow p w)).trans (List.dropWhile_sublist _)

/-- Polling leaves `requests_last_minute` unchanged at any time at or after
the polls. -/
theorem generateStreamWindow_recent (polls w : List ℚ) (now' : ℚ)
    (h : ∀ p ∈ polls, p ≤ now') :
    recentRequests now' (generateStreamWindow polls w) = recentRequests now' w := by
  induction polls generalizing w with
  | nil => rfl
  | cons p ps ih =>
      have hp : p ≤ now' := h p (List.mem_cons_self p ps)
      calc recentRequests now' (generateStreamWindow ps (pruneWindow p w))
          = recentRequests now' (pruneWindow p w) :=
            ih _ (fun q hq => h q (List.mem_cons_of_mem _ hq))
        _ = recentRequests now' w := pruneWindow_preserves_recent p now' hp w

/-- Polling leaves the pruned window — hence every later `_can_send`
verdict — unchanged at any time at or after the polls. -/
theorem generateStreamWindow_prune (polls w : List ℚ) (now' : ℚ)
    (h : ∀ p ∈ polls, p ≤ now') :
    pruneWindow now' (generateStreamWindow polls w) = pruneWindow now' w := by
  induction polls generalizing w with
  | nil => rfl
  | cons p ps ih =>
      have hp : p ≤ now' := h p (List.mem_cons_self p ps)
      calc pruneWindow now' (generateStreamWindow ps (pruneWindow p w))
          = pruneWindow now' (pruneWindow p w) :=
            ih _ (fun q hq => h q (List.mem_cons_of_mem _ hq))
        _ = pruneWindow now' w := pruneWindow_pruneWindow p now' hp w

end RateLimitedLLMClient

open RateLimitedLLMClient in
/-- C10: a `generate_stream` call never records a timestamp in the trailing
60-second window — its polling only prunes already-stale entries — so after
it completes the window is a sublist of what it was, and at any observation
time `now'` at or after the polls, `requests_last_minute`,
`capacity_remaining`, `utilization`, and the `_can_send` verdict of
concurrent `generate` calls are all exactly as if the streaming call had
not happened. -/
theorem C10_generate_stream_consumes_no_capacity (w polls : List ℚ)
    (now' : ℚ) (maxRpm : ℕ) (h : ∀ p ∈ polls, p ≤ now') :
    (generateStreamWindow polls w).Sublist w
    ∧ recentRequests now' (generateStreamWindow polls w) = recentRequests now' w
    ∧ capacityRemaining now' maxRpm (generateStreamWindow polls w) =
        capacityRemaining now' maxRpm w
    ∧ utilization now' maxRpm (generateStreamWindow polls w) =
        utilization now' maxRpm w
    ∧ can_send now' maxRpm (generateStreamWindow polls w) =
        can_send now' maxRpm w := by
  refine ⟨generateStreamWindow_sublist polls w, ?_, ?_, ?_, ?_⟩
  · exact generateStreamWindow_recent polls w now' h
  · unfold capacityRemaining
    rw [generateStreamWindow_recent polls w now' h]
  · unfold utilization
    rw [generateStreamWindow_recent polls w now' h]
  · unfold can_send
    rw [generateStreamWindow_prune polls w now' h]

open RateLimitedLLMClient in
/-- Witness for C10: a window holding timestamps 0 and 10, one poll at time
70 (which prunes the stale timestamp 0), observed at time 80. -/
theorem C10_generate_stream_consumes_no_capacity_witness :
    (∀ p ∈ [(70 : ℚ)], p ≤ (80 : ℚ))
    ∧ ((generateStreamWindow [70] [0, 10]).Sublist [0, 10]
      ∧ recentRequests 80 (generateStreamWindow [70] [0, 10]) = recentRequests 80 [0, 10]
      ∧ capacityRemaining 80 2 (generateStreamWindow [70] [0, 10]) = capacityRemaining 80 2 [0, 10]
      ∧ utilization 80 2 (generateStreamWindow [70] [0, 10]) = utilization 80 2 [0, 10]
      ∧ can_send 80 2 (generateStreamWindow [70] [0, 10]) = can_send 80 2 [0, 10]) :=
  ⟨by decide, C10_generate_stream_consumes_no_capacity [0, 10] [70] 80 2 (by decide)⟩

namespace RuleBasedReranker

/-- The stable sort permutes its input. -/
theorem sortByScoreDesc_perm (l : List RerankedResult) :
    (sortByScoreDesc l).Perm l :=
  List.mergeSort_perm l _

/-- The stable descending sort yields pairwise non-increasing scores. -/
theorem sortByScoreDesc_sorted (l : List RerankedResult) :
    (sortByScoreDesc l).Pairwise (fun a b => b.score ≤ a.score) := by
  have h := @List.sorted_mergeSort RerankedResult
    (fun a b : RerankedResult => decide (b.score ≤ a.score))
    (fun a b c hab hbc => by
      simp only [decide_eq_true_eq] at hab hbc ⊢
      exact hbc.trans hab)
    (fun a b => by
      simp only [Bool.or_eq_true, decide_eq_true_eq]
      exact le_total b.score a.score)
    l
  exact h.imp (fun hab => by simpa using hab)

/-- Every output of `rerank` is sorted by combined score, non-increasing. -/
theorem rerank_sorted (w : Weights) (vrs : List VectorSearchResult)
    (krs : List KeywordSearchResult) :
    (rerank w vrs krs).Pairwise (fun a b => b.score ≤ a.score) :=
  sortByScoreDesc_sorted _

/-- A chunk id absent from the list is absent from the dict. -/
theorem vectorMap_eq_none (vrs : List VectorSearchResult) (id : String)
    (h : ¬ id ∈ vrs.map (fun r => r.chunk_id)) :
    vectorMap vrs id = none := by
  induction vrs with
  | nil => rfl
  | cons r rest ih =>
      simp only [List.map_cons, List.mem_cons, not_or] at h
      have hne : ¬ r.chunk_id = id := fun hc => h.1 hc.symm
      unfold vectorMap
      rw [ih h.2, if_neg hne]

/-- With pairwise-distinct chunk ids, the vector dict maps each candidate's
id back to that candidate. -/
theorem vectorMap_eq_of_nodup (vrs : List VectorSearchResult)
    (hnd : (vrs.map (fun r => r.chunk_id)).Nodup)
    (v : VectorSearchResult) (hv : v ∈ vrs) :
    vectorMap vrs v.chunk_id = some v := by
  induction vrs with
  | nil => cases hv
  | cons r rest ih =>
      simp only [List.map_cons, List.nodup_cons] at hnd
      cases hv with
      | head =>
          unfold vectorMap
          rw [vectorMap_eq_none rest v.chunk_id hnd.1]
          simp
      | tail _ hv0 =>
          unfold vectorMap
          rw [ih hnd.2 hv0]

/-- First-occurrence dedup is the identity on duplicate-free lists. -/
theorem dedupFirstAux_eq_of_nodup (l seen : List String)
    (hnd : l.Nodup) (hdis : ∀ x ∈ l, ¬ x ∈ seen) :
    dedupFirstAux l seen = l := by
  induction l generalizing seen with
  | nil => rfl
  | cons x xs ih =>
      simp only [List.nodup_cons] at hnd
      unfold dedupFirstAux
      rw [if_neg (hdis x (List.mem_cons_self x xs))]
      rw [ih (x :: seen) hnd.2]
      intro y hy
      simp only [List.mem_cons, not_or]
      exact ⟨fun he => hnd.1 (he ▸ hy), fun hc => hdis y (List.mem_cons_of_mem x hy) hc⟩

/-- First-occurrence dedup is the identity on duplicate-free lists. -/
theorem dedupFirst_eq_of_nodup (l : List String) (hnd : l.Nodup) :
    dedupFirst l = l :=
  dedupFirstAux_eq_of_nodup l [] hnd (fun x _ => List.not_mem_nil x)

end RuleBasedReranker

open RuleBasedReranker in
/-- C2 (counterexample): with the default weights (0.7, 0.3) and a single
vector candidate of score 1, `rerank(V, [])` returns combined score
`0.7 * 1 = 0.7` while `rerank_vector_only(V)` returns the raw score 1, so
the two calls differ. -/
theorem C2_rerank_empty_lexical_counterexample :
    ¬ rerank (RuleBasedReranker.init (7/10) (3/10))
        [{ score := 1, chunk_id := "a", content := "body",
           metadata := default, index_name := "i" }] [] =
      rerank_vector_only
        [{ score := 1, chunk_id := "a", content := "body",
           metadata := default, index_name := "i" }] := by
  with_unfolding_all decide

open RuleBasedReranker in
/-- C2 (amended): for every vector candidate list with pairwise-distinct
chunk ids, `rerank(V, [])` is a permutation of `rerank_vector_only(V)` with
every combined score scaled by the configured vector weight (the keyword
score defaulting to 0 contributes `keyword_weight * 0`), the output being
sorted by combined score in non-increasing order — it is not the identity
pass-through of the original claim. -/
theorem C2_rerank_empty_lexical_amended (w : Weights)
    (vrs : List VectorSearchResult)
    (hnd : (vrs.map (fun r => r.chunk_id)).Nodup) :
    (rerank w vrs []).Perm
      ((rerank_vector_only vrs).map
        (fun r => { r with score := w.vector_weight * r.score }))
    ∧ (rerank w vrs []).Pairwise (fun a b => b.score ≤ a.score) := by
  constructor
  · have hids : dedupFirst (vrs.map (fun r => r.chunk_id) ++
        ([] : List KeywordSearchResult).map (fun r => r.chunk_id)) =
        vrs.map (fun r => r.chunk_id) := by
      simp only [List.map_nil, List.append_nil]
      exact dedupFirst_eq_of_nodup _ hnd
    have hmap : (vrs.map (fun r => r.chunk_id)).map (mergeOne w vrs []) =
        (rerank_vector_only vrs).map
          (fun r => { r with score := w.vector_weight * r.score }) := by
      rw [List.map_map]
      unfold rerank_vector_only
      rw [List.map_map]
      apply List.map_congr_left
      intro v hv
      simp only [Function.comp_apply]
      unfold mergeOne
      rw [vectorMap_eq_of_nodup vrs hnd v hv]
      simp [keywordMap, mul_zero, add_zero]
    have h1 : (rerank w vrs []).Perm
        ((dedupFirst (vrs.map (fun r => r.chunk_id) ++
          ([] : List KeywordSearchResult).map (fun r => r.chunk_id))).map
          (mergeOne w vrs [])) := sortByScoreDesc_perm _
    have h2 : ((dedupFirst (vrs.map (fun r => r.chunk_id) ++
          ([] : List KeywordSearchResult).map (fun r => r.chunk_id))).map
          (mergeOne w vrs [])) =
        (rerank_vector_only vrs).map
          (fun r => { r with score := w.vector_weight * r.score }) := by
      rw [hids]; exact hmap
    exact h2 ▸ h1
  · exact rerank_sorted w vrs []

open RuleBasedReranker in
/-- Witness for the amended C2 at two concrete candidates with distinct
chunk ids and the default weights. -/
theorem C2_rerank_empty_lexical_amended_witness :
    (([{ score := 1, chunk_id := "a", content := "x",
         metadata := default, index_name := "i" },
       { score := 2, chunk_id := "b", content := "y",
         metadata := default, index_name := "i" }].map
        (fun r : VectorSearchResult => r.chunk_id)).Nodup)
    ∧ ((rerank (RuleBasedReranker.init (7/10) (3/10))
        [{ score := 1, chunk_id := "a", content := "x",
           metadata := default, index_name := "i" },
         { score := 2, chunk_id := "b", content := "y",
           metadata := default, index_name := "i" }] []).Perm
        ((rerank_vector_only
          [{ score := 1, chunk_id := "a", content := "x",
             metadata := default, index_name := "i" },
           { score := 2, chunk_id := "b", content := "y",
             metadata := default, index_name := "i" }]).map
          (fun r => { r with score :=
            (RuleBasedReranker.init (7/10) (3/10)).vector_weight * r.score }))
      ∧ (rerank (RuleBasedReranker.init (7/10) (3/10))
          [{ score := 1, chunk_id := "a", content := "x",
             metadata := default, index_name := "i" },
           { score := 2, chunk_id := "b", content := "y",
             metadata := default, index_name := "i" }] []).Pairwise
          (fun a b => b.score ≤ a.score)) :=
  ⟨by decide, C2_rerank_empty_lexical_amended _ _ (by decide)⟩

open RuleBasedReranker in
/-- C5 (counterexample): configured weights (0.7, 0.305) sum to 1.005,
within the 0.01 tolerance, so `__init__` keeps them unnormalized and
`vector_weight + keyword_weight ≠ 1`. -/
theorem C5_weights_counterexample :
    ¬ ((RuleBasedReranker.init (7/10) (61/200)).vector_weight +
        (RuleBasedReranker.init (7/10) (61/200)).keyword_weight = 1) := by
  with_unfolding_all decide

open RuleBasedReranker in
/-- C5 (amended): `rerank` unions the two candidate sets by chunk id, gives
0 for a score missing from one source, and combines them linearly with the
configured weights; but the weights are divided by their (nonzero) sum —
making them sum to 1 — only when that sum deviates from 1 by more than
0.01, and are otherwise used exactly as configured. -/
theorem C5_rerank_union_and_weights (vw kw : ℚ)
    (vrs : List VectorSearchResult) (krs : List KeywordSearchResult) :
    (1/100 < |vw + kw - 1| → ¬ vw + kw = 0 →
        (RuleBasedReranker.init vw kw).vector_weight +
          (RuleBasedReranker.init vw kw).keyword_weight = 1)
    ∧ (¬ 1/100 < |vw + kw - 1| →
        RuleBasedReranker.init vw kw =
          { vector_weight := vw, keyword_weight := kw })
    ∧ (∀ w : Weights, ∀ r ∈ rerank w vrs krs,
          r.vector_score = ((vectorMap vrs r.chunk_id).map
            (fun v => v.score)).getD 0
        ∧ r.keyword_score = ((keywordMap krs r.chunk_id).map
            (fun k => k.score)).getD 0
        ∧ r.score = w.vector_weight * r.vector_score +
            w.keyword_weight * r.keyword_score)
    ∧ (∀ w : Weights, ((rerank w vrs krs).map (fun r => r.chunk_id)).Perm
          (dedupFirst (vrs.map (fun r => r.chunk_id) ++
            krs.map (fun r => r.chunk_id)))) := by
  refine ⟨?_, ?_, ?_, ?_⟩
  · intro hdev hnz
    unfold RuleBasedReranker.init
    rw [if_pos hdev]
    simp only
    rw [div_add_div_same, div_self hnz]
  · intro hdev
    unfold RuleBasedReranker.init
    rw [if_neg hdev]
  · intro w r hr
    have hr2 : r ∈ (dedupFirst (vrs.map (fun r => r.chunk_id) ++
        krs.map (fun r => r.chunk_id))).map (mergeOne w vrs krs) :=
      ((sortByScoreDesc_perm _).mem_iff).mp hr
    rcases List.mem_map.mp hr2 with ⟨id, _, rfl⟩
    exact ⟨rfl, rfl, rfl⟩
  · intro w
    have hperm : ((rerank w vrs krs).map (fun r => r.chunk_id)).Perm
        (((dedupFirst (vrs.map (fun r => r.chunk_id) ++
          krs.map (fun r => r.chunk_id))).map (mergeOne w vrs krs)).map
          (fun r => r.chunk_id)) :=
      (sortByScoreDesc_perm _).map (fun r => r.chunk_id)
    have heq : (((dedupFirst (vrs.map (fun r => r.chunk_id) ++
        krs.map (fun r => r.chunk_id))).map (mergeOne w vrs krs)).map
          (fun r => r.chunk_id)) =
        dedupFirst (vrs.map (fun r => r.chunk_id) ++
          krs.map (fun r => r.chunk_id)) := by
      rw [List.map_map]
      have hcomp : ((fun r : RerankedResult => r.chunk_id) ∘
          mergeOne w vrs krs) = fun id => id := rfl
      rw [hcomp]
      exact List.map_id' _
    rw [heq] at hperm
    exact hperm

open RuleBasedReranker in
/-- Witness for the amended C5: weights (2, 2) are normalized to sum 1;
weights (0.7, 0.3) are within tolerance and kept; and the union/score
equations hold on a concrete mixed candidate pair. -/
theorem C5_rerank_union_and_weights_witness :
    ((1:ℚ)/100 < |(2:ℚ) + 2 - 1| ∧ ¬ (2:ℚ) + 2 = 0
      ∧ (RuleBasedReranker.init 2 2).vector_weight +
          (RuleBasedReranker.init 2 2).keyword_weight = 1)
    ∧ (¬ (1:ℚ)/100 < |(7:ℚ)/10 + 3/10 - 1|
      ∧ RuleBasedReranker.init (7/10) (3/10) =
          { vector_weight := 7/10, keyword_weight := 3/10 })
    ∧ (∀ r ∈ rerank { vector_weight := 7/10, keyword_weight := 3/10 }
          [{ score := 1, chunk_id := "a", content := "x",
             metadata := default, index_name := "i" }]
          [{ score := 1/2, chunk_id := "b", content := "y",
             metadata := default, matched_terms := ["t"] }],
          r.score = (7:ℚ)/10 * r.vector_score + 3/10 * r.keyword_score) := by
  refine ⟨⟨by with_unfolding_all decide, by with_unfolding_all decide, ?_⟩,
    ⟨by with_unfolding_all decide, ?_⟩, ?_⟩
  · exact (C5_rerank_union_and_weights 2 2 [] []).1
      (by with_unfolding_all decide) (by with_unfolding_all decide)
  · exact (C5_rerank_union_and_weights (7/10) (3/10) [] []).2.1
      (by with_unfolding_all decide)
  · intro r hr
    exact ((C5_rerank_union_and_weights (7/10) (3/10) _ _).2.2.1
      { vector_weight := 7/10, keyword_weight := 3/10 } r hr).2.2

namespace ResultFilter

/-- Membership in a guarded filter stage: the element was already present,
and when the stage's guard is on it passed the stage's predicate. -/
theorem mem_condFilter {g : Bool} {p : RerankedResult → Bool}
    {l : List RerankedResult} {r : RerankedResult}
    (h : r ∈ condFilter g p l) : r ∈ l ∧ (g = true → p r = true) := by
  cases g with
  | false =>
      simp only [condFilter, Bool.false_eq_true, if_false] at h
      exact ⟨h, by simp⟩
  | true =>
      simp only [condFilter, if_true] at h
      rw [List.mem_filter] at h
      exact ⟨h.1, fun _ => h.2⟩

end ResultFilter

open ResultFilter in
/-- C6 (counterexample): with `max_results = 0` and an empty language
allow-list — both "specified" but Python-falsy — the filter returns the
input unchanged: more than `max_results` results, a result whose language
is not in the allow-list, and a result below the score floor `min_score = 0`. -/
theorem C6_filter_counterexample :
    ResultFilter.filter [c6result] c6criteria = [c6result]
    ∧ c6criteria.max_results = some 0
    ∧ ¬ ((ResultFilter.filter [c6result] c6criteria).length ≤ 0)
    ∧ c6criteria.languages = some []
    ∧ ¬ (toLowerStr c6result.metadata.language ∈
          (c6criteria.languages.getD []).map (fun l => toLowerStr l))
    ∧ ¬ (c6criteria.min_score ≤ c6result.score) := by
  refine ⟨?_, rfl, ?_, rfl, ?_, ?_⟩ <;> with_unfolding_all decide

open ResultFilter in
/-- C6 (amended): `filter` is the seven predicate stages — the score floor
first — followed by the result cap; it returns at most `n` results whenever
`max_results` is a positive `n`; its output is a prefix of the fully
filtered (pre-cap) list, so truncation reflects post-floor relevance; and
every returned result comes from the input and satisfies every predicate
whose criterion is truthy: score ≥ min_score when `min_score > 0`, file
type in the allow-list when `file_types` is non-empty, language in the
allow-list when `languages` is non-empty, path starting with a non-empty
`path_prefix`, no exclude pattern occurring in the path when
`path_excludes` is non-empty, line-range overlap when `line_range` is
present, and section kind in the allow-list when `section_types` is
non-empty.  (Falsy criteria — `None`, empty lists, empty prefix, zero
`min_score`, zero `max_results` — impose nothing.) -/
theorem C6_filter_criteria (results : List RerankedResult)
    (c : FilterCriteria) :
    ResultFilter.filter results c = capResults c (filterStages results c)
    ∧ (ResultFilter.filter results c).IsPrefix (filterStages results c)
    ∧ (∀ n, c.max_results = some n → 0 < n →
        (ResultFilter.filter results c).length ≤ n)
    ∧ (∀ r ∈ ResultFilter.filter results c,
        r ∈ results
      ∧ (0 < c.min_score → c.min_score ≤ r.score)
      ∧ (optListTruthy c.file_types = true →
          fileTypeOk (c.file_types.getD []) r = true)
      ∧ (optListTruthy c.languages = true →
          languageOk (c.languages.getD []) r = true)
      ∧ (optStrTruthy c.path_pref = true →
          pathPrefOk (c.path_pref.getD "") r = true)
      ∧ (optListTruthy c.path_excludes = true →
          pathExcludeOk (c.path_excludes.getD []) r = true)
      ∧ (∀ lo hi, c.line_range = some (lo, hi) →
          r.metadata.startLine ≤ hi ∧ lo ≤ r.metadata.endLine)
      ∧ (optListTruthy c.section_types = true →
          r.metadata.sectionType ∈ c.section_types.getD [])) := by
  refine ⟨rfl, ?_, ?_, ?_⟩
  · unfold ResultFilter.filter capResults
    split
    · exact List.take_prefix _ _
    · exact List.prefix_refl _
  · intro n hn hpos
    unfold ResultFilter.filter capResults
    rw [hn]
    by_cases hc : (optNatTruthy (some n) = true ∧
        ((some n).getD 0) < (filterStages results c).length)
    · rw [if_pos hc]
      simp only [Option.getD_some]
      rw [List.length_take]
      exact inf_le_left
    · rw [if_neg hc]
      have htr : optNatTruthy (some n) = true := by
        simp only [optNatTruthy, decide_eq_true_eq]
        exact hpos
      rcases Decidable.not_and_iff_or_not.mp hc with h1 | h2
      · exact absurd htr h1
      · simp only [Option.getD_some, not_lt] at h2
        exact h2
  · intro r hr
    have hr7 : r ∈ filterStages results c := by
      unfold ResultFilter.filter capResults at hr
      split at hr
      · exact List.take_subset _ _ hr
      · exact hr
    have h7 := mem_condFilter hr7
    have h6 := mem_condFilter h7.1
    have h5 := mem_condFilter h6.1
    have h4 := mem_condFilter h5.1
    have h3 := mem_condFilter h4.1
    have h2 := mem_condFilter h3.1
    have h1 := mem_condFilter h2.1
    refine ⟨h1.1, ?_, h2.2, h3.2, h4.2, h5.2, ?_, ?_⟩
    · intro hm
      have := h1.2 (by simpa using hm)
      simpa [scoreOk] using this
    · intro lo hi hlr
      have hs : c.line_range.isSome = true := by rw [hlr]; rfl
      have := h6.2 hs
      rw [hlr] at this
      simpa [lineRangeOk] using this
    · intro hst
      have := h7.2 hst
      simpa [sectionTypeOk] using this

open ResultFilter in
/-- Witness for C6 at a concrete input: criteria with a positive score
floor, a language allow-list, a present line range and `max_results = 1`
keep exactly the passing result, and the theorem's bound and predicate
conclusions are discharged on it. -/
theorem C6_filter_criteria_witness :
    ((some (1 : ℕ)) = some 1 ∧ (0 : ℕ) < 1
      ∧ (ResultFilter.filter [c6result,
          { score := 2, chunk_id := "r2", content := "ok",
            metadata := { sourceFile := "src/k.py", language := "Python",
                          startLine := 1, endLine := 4,
                          sectionType := "function" },
            vector_score := 2, keyword_score := 0 }]
          { min_score := 1/2, languages := some ["python"],
            line_range := some (2, 3), max_results := some 1 }).length ≤ 1)
    ∧ (∀ r ∈ ResultFilter.filter [c6result,
          { score := 2, chunk_id := "r2", content := "ok",
            metadata := { sourceFile := "src/k.py", language := "Python",
                          startLine := 1, endLine := 4,
                          sectionType := "function" },
            vector_score := 2, keyword_score := 0 }]
          { min_score := 1/2, languages := some ["python"],
            line_range := some (2, 3), max_results := some 1 },
        ((1:ℚ)/2 ≤ r.score ∧ r.metadata.startLine ≤ 3 ∧ 2 ≤ r.metadata.endLine)) := by
  constructor
  · refine ⟨rfl, Nat.one_pos, ?_⟩
    exact (C6_filter_criteria _ _).2.2.1 1 rfl Nat.one_pos
  · intro r hr
    have h := (C6_filter_criteria _ _).2.2.2 r hr
    refine ⟨?_, ?_⟩
    · exact h.2.1 (by with_unfolding_all decide)
    · exact h.2.2.2.2.2.2.1 2 3 rfl

namespace BM25

/-- The descending sort of the score pairs permutes its input. -/
theorem sortPairsDesc_perm (l : List (String × ℚ)) :
    (sortPairsDesc l).Perm l :=
  List.mergeSort_perm l _

/-- The descending sort of the score pairs yields pairwise non-increasing
scores. -/
theorem sortPairsDesc_sorted (l : List (String × ℚ)) :
    (sortPairsDesc l).Pairwise (fun a b => b.2 ≤ a.2) := by
  have h := @List.sorted_mergeSort (String × ℚ)
    (fun a b : String × ℚ => decide (b.2 ≤ a.2))
    (fun a b c hab hbc => by
      simp only [decide_eq_true_eq] at hab hbc ⊢
      exact hbc.trans hab)
    (fun a b => by
      simp only [Bool.or_eq_true, decide_eq_true_eq]
      exact le_total b.2 a.2)
    l
  exact h.imp (fun hab => by simpa using hab)

/-- First-occurrence dedup only keeps elements of the input. -/
theorem dedupFirstAux_subset (l seen : List String) :
    dedupFirstAux l seen ⊆ l := by
  induction l generalizing seen with
  | nil => intro y hy; cases hy
  | cons x xs ih =>
      intro y hy
      unfold dedupFirstAux at hy
      by_cases hmem : x ∈ seen
      · rw [if_pos hmem] at hy
        exact List.mem_cons_of_mem x (ih seen hy)
      · rw [if_neg hmem] at hy
        rcases List.mem_cons.mp hy with rfl | hy2
        · exact List.mem_cons_self y xs
        · exact List.mem_cons_of_mem x (ih (x :: seen) hy2)

/-- First-occurrence dedup only keeps elements of the input. -/
theorem dedupFirst_subset (l : List String) : dedupFirst l ⊆ l :=
  dedupFirstAux_subset l []

/-- First-occurrence dedup never lengthens a list. -/
theorem dedupFirstAux_length_le (l seen : List String) :
    (dedupFirstAux l seen).length ≤ l.length := by
  induction l generalizing seen with
  | nil => exact Nat.le_refl 0
  | cons x xs ih =>
      unfold dedupFirstAux
      by_cases hmem : x ∈ seen
      · rw [if_pos hmem]
        exact (ih seen).trans (Nat.le_succ _)
      · rw [if_neg hmem]
        simpa using Nat.succ_le_succ (ih (x :: seen))

/-- A chunk id in the candidate set owes its membership to some query token
occurring in some added version of that chunk. -/
theorem exists_tok_of_mem_searchCandidates (docs : List BM25Doc)
    (qtoks : List String) (id : String)
    (h : id ∈ searchCandidates docs qtoks) :
    ∃ tok ∈ qtoks, ∃ d ∈ docs, d.chunk_id = id ∧ tok ∈ tokenize d.content := by
  have h1 := dedupFirst_subset _ h
  rcases List.mem_flatMap.mp h1 with ⟨tok, htok, hpost⟩
  have h2 := dedupFirst_subset _ hpost
  rcases List.mem_map.mp h2 with ⟨d, hd, rfl⟩
  rw [List.mem_filter] at hd
  exact ⟨tok, htok, d, hd.1, rfl, of_decide_eq_true hd.2⟩

/-- A chunk some version of which contains the token has a positive
accumulated term frequency. -/
theorem termFreq_pos_of_mem (docs : List BM25Doc) (id tok : String)
    (d : BM25Doc) (hd : d ∈ docs) (hid : d.chunk_id = id)
    (htok : tok ∈ tokenize d.content) :
    0 < termFreq docs id tok := by
  unfold termFreq
  have hd2 : d ∈ docs.filter (fun d => decide (d.chunk_id = id)) := by
    rw [List.mem_filter]
    exact ⟨hd, decide_eq_true hid⟩
  have hc : (tokenize d.content).count tok ∈
      (docs.filter (fun d => decide (d.chunk_id = id))).map
        (fun d => (tokenize d.content).count tok) :=
    List.mem_map_of_mem _ hd2
  have hpos : 0 < (tokenize d.content).count tok :=
    List.count_pos_iff.mpr htok
  exact lt_of_lt_of_le hpos
    (List.single_le_sum (fun x _ => Nat.zero_le x) _ hc)

/-- A positive accumulated term frequency comes from some added chunk that
contains the token. -/
theorem exists_doc_of_termFreq_pos (docs : List BM25Doc) (id tok : String)
    (h : 0 < termFreq docs id tok) :
    ∃ d ∈ docs, d.chunk_id = id ∧ tok ∈ tokenize d.content := by
  by_contra hno
  push_neg at hno
  have hz : termFreq docs id tok = 0 := by
    unfold termFreq
    apply List.sum_eq_zero
    intro x hx
    rcases List.mem_map.mp hx with ⟨d, hd, rfl⟩
    rw [List.mem_filter] at hd
    have hid : d.chunk_id = id := of_decide_eq_true hd.2
    by_contra hcnt
    have htok : tok ∈ tokenize d.content :=
      List.count_pos_iff.mp (Nat.pos_of_ne_zero hcnt)
    exact (hno d hd.1 hid) htok
  rw [hz] at h
  exact absurd h (lt_irrefl 0)

/-- The document frequency of a token never exceeds the corpus size. -/
theorem postingIds_length_le (docs : List BM25Doc) (tok : String) :
    (postingIds docs tok).length ≤ docs.length := by
  unfold postingIds dedupFirst
  refine (dedupFirstAux_length_le _ _).trans ?_
  rw [List.length_map]
  exact List.length_filter_le _ _

/-- After one bulk load on a fresh index, the corpus is the batch. -/
theorem singleLoad_docs (k1 b : ℚ) (batch : List BM25Doc) :
    (add_documents (BM25Index.init k1 b) batch).docs = batch :=
  rfl

/-- After one bulk load on a fresh index, `num_docs` is the batch size. -/
theorem singleLoad_num_docs (k1 b : ℚ) (batch : List BM25Doc) :
    (add_documents (BM25Index.init k1 b) batch).num_docs = batch.length :=
  Nat.zero_add _

/-- After one non-empty bulk load on a fresh index, `avg_doc_length` is the
batch's total token count over the batch size. -/
theorem singleLoad_avg (k1 b : ℚ) (batch : List BM25Doc)
    (hne : ¬ batch = []) :
    (add_documents (BM25Index.init k1 b) batch).avg_doc_length =
      ((batch.map (fun d => (tokenize d.content).length)).sum : ℚ) /
        ((batch.length : ℕ) : ℚ) := by
  unfold add_documents BM25Index.init
  simp only
  rw [Nat.zero_add]
  rw [if_pos (List.length_pos.mpr hne)]

/-- After one bulk load in which some chunk has at least one token, the
stored average document length is positive. -/
theorem singleLoad_avg_pos (k1 b : ℚ) (batch : List BM25Doc)
    (d : BM25Doc) (tok : String) (hd : d ∈ batch)
    (htok : tok ∈ tokenize d.content) :
    0 < (add_documents (BM25Index.init k1 b) batch).avg_doc_length := by
  have hne : ¬ batch = [] := by
    intro h
    subst h
    cases hd
  rw [singleLoad_avg k1 b batch hne]
  apply div_pos
  · have hlen : 0 < (tokenize d.content).length :=
      List.length_pos.mpr (List.ne_nil_of_mem htok)
    have hmem : (tokenize d.content).length ∈
        batch.map (fun d => (tokenize d.content).length) :=
      List.mem_map_of_mem _ hd
    have hsum : (tokenize d.content).length ≤
        (batch.map (fun d => (tokenize d.content).length)).sum :=
      List.single_le_sum (fun x _ => Nat.zero_le x) _ hmem
    exact_mod_cast lt_of_lt_of_le hlen hsum
  · exact_mod_cast List.length_pos.mpr hne

/-- With the BM25 parameters in range (`0 ≤ k1`, `0 ≤ b ≤ 1`), a strictly
positive `math.log` on `(1, ∞)` (true of `ln`), and a positive accumulated
term frequency, one term's BM25 contribution after a single bulk load is
strictly positive. -/
theorem scoreTerm_pos (logf : ℚ → ℚ) (k1 b : ℚ) (batch : List BM25Doc)
    (id tok : String) (hk1 : 0 ≤ k1) (hb0 : 0 ≤ b) (hb1 : b ≤ 1)
    (hlog : ∀ x : ℚ, 1 < x → 0 < logf x)
    (htf : 0 < termFreq batch id tok) :
    0 < scoreTerm logf (add_documents (BM25Index.init k1 b) batch) id tok := by
  obtain ⟨d, hd, _, hdtok⟩ := exists_doc_of_termFreq_pos batch id tok htf
  have havg : 0 < (add_documents (BM25Index.init k1 b) batch).avg_doc_length :=
    singleLoad_avg_pos k1 b batch d tok hd hdtok
  unfold scoreTerm
  rw [singleLoad_docs, singleLoad_num_docs]
  have hb2 : (add_documents (BM25Index.init k1 b) batch).b = b := rfl
  have hk2 : (add_documents (BM25Index.init k1 b) batch).k1 = k1 := rfl
  rw [hb2, hk2]
  have htfq : (0 : ℚ) < (termFreq batch id tok : ℚ) := by exact_mod_cast htf
  have hdfq : (0 : ℚ) ≤ ((postingIds batch tok).length : ℚ) := by
    exact_mod_cast Nat.zero_le _
  have hdfle : ((postingIds batch tok).length : ℚ) ≤ (batch.length : ℚ) := by
    exact_mod_cast postingIds_length_le batch tok
  have hidf : 0 < idfOf logf batch.length (postingIds batch tok).length := by
    apply hlog
    have hnum : (0 : ℚ) <
        (batch.length : ℚ) - ((postingIds batch tok).length : ℚ) + 1 / 2 := by
      linarith
    have hden : (0 : ℚ) < ((postingIds batch tok).length : ℚ) + 1 / 2 := by
      linarith
    have hq := div_pos hnum hden
    linarith
  have hnorm : 0 ≤ 1 - b + b *
      ((docLen batch id : ℚ) /
        (add_documents (BM25Index.init k1 b) batch).avg_doc_length) := by
    have hdl : (0 : ℚ) ≤ (docLen batch id : ℚ) := by exact_mod_cast Nat.zero_le _
    have hquot : (0 : ℚ) ≤ (docLen batch id : ℚ) /
        (add_documents (BM25Index.init k1 b) batch).avg_doc_length :=
      div_nonneg hdl (le_of_lt havg)
    nlinarith
  apply div_pos
  · apply mul_pos hidf
    apply mul_pos htfq
    linarith
  · have hmn : 0 ≤ k1 * (1 - b + b * ((docLen batch id : ℚ) /
        (add_documents (BM25Index.init k1 b) batch).avg_doc_length)) :=
      mul_nonneg hk1 hnorm
    linarith

/-- Every candidate of a query against a single-bulk-load index scores
strictly positive. -/
theorem docScore_pos (logf : ℚ → ℚ) (k1 b : ℚ) (batch : List BM25Doc)
    (qtoks : List String) (id : String)
    (hk1 : 0 ≤ k1) (hb0 : 0 ≤ b) (hb1 : b ≤ 1)
    (hlog : ∀ x : ℚ, 1 < x → 0 < logf x)
    (hid : id ∈ searchCandidates batch qtoks) :
    0 < docScore logf (add_documents (BM25Index.init k1 b) batch) qtoks id := by
  obtain ⟨tok, htokq, d, hd, hdid, htokd⟩ :=
    exists_tok_of_mem_searchCandidates batch qtoks id hid
  have htf : 0 < termFreq batch id tok :=
    termFreq_pos_of_mem batch id tok d hd hdid htokd
  have hmem : tok ∈ matchedOf (add_documents (BM25Index.init k1 b) batch)
      qtoks id := by
    unfold matchedOf
    rw [List.mem_filter]
    exact ⟨htokq, decide_eq_true htf⟩
  unfold docScore
  apply List.sum_pos
  · intro x hx
    rcases List.mem_map.mp hx with ⟨tok2, htok2, rfl⟩
    have htf2 : 0 < termFreq batch id tok2 :=
      of_decide_eq_true (List.mem_filter.mp htok2).2
    exact scoreTerm_pos logf k1 b batch id tok2 hk1 hb0 hb1 hlog htf2
  · intro hnil
    rw [List.map_eq_nil_iff] at hnil
    rw [hnil] at hmem
    cases hmem

/-- A guarded `filterMap` whose guard holds everywhere is a `map`. -/
theorem filterMap_guard_eq_map (g : String → ℚ) (l : List String)
    (h : ∀ id ∈ l, 0 < g id) :
    l.filterMap (fun id => if 0 < g id then some (id, g id) else none) =
      l.map (fun id => (id, g id)) := by
  induction l with
  | nil => rfl
  | cons x xs ih =>
      have hfx : (if 0 < g x then some (x, g x) else none) = some (x, g x) :=
        if_pos (h x (List.mem_cons_self x xs))
      rw [List.filterMap_cons, List.map_cons, hfx,
        ih (fun id hid => h id (List.mem_cons_of_mem x hid))]

/-- When every candidate scores positive, the `scores` dict keeps every
candidate with its score. -/
theorem scoredList_eq_map (logf : ℚ → ℚ) (idx : BM25Index)
    (qtoks : List String)
    (h : ∀ id ∈ searchCandidates idx.docs qtoks,
      0 < docScore logf idx qtoks id) :
    scoredList logf idx qtoks =
      (searchCandidates idx.docs qtoks).map
        (fun id => (id, docScore logf idx qtoks id)) :=
  filterMap_guard_eq_map _ _ h

/-- Every kept score pair is a candidate with its (positive) document
score. -/
theorem mem_scoredList (logf : ℚ → ℚ) (idx : BM25Index)
    (qtoks : List String) (p : String × ℚ)
    (hp : p ∈ scoredList logf idx qtoks) :
    p.1 ∈ searchCandidates idx.docs qtoks
    ∧ p.2 = docScore logf idx qtoks p.1 ∧ 0 < p.2 := by
  unfold scoredList at hp
  rcases List.mem_filterMap.mp hp with ⟨id, hid, hf⟩
  by_cases hpos : 0 < docScore logf idx qtoks id
  · rw [if_pos hpos] at hf
    cases hf
    exact ⟨hid, rfl, hpos⟩
  · rw [if_neg hpos] at hf
    cases hf

/-- Normalization keeps the chunk id of each ranked pair. -/
theorem mem_normalizeRanked (l : List (String × ℚ)) (p : String × ℚ)
    (hp : p ∈ normalizeRanked l) : ∃ q ∈ l, p.1 = q.1 := by
  unfold normalizeRanked at hp
  cases hh : l.head? with
  | none =>
      rw [hh] at hp
      exact ⟨p, hp, rfl⟩
  | some p0 =>
      rw [hh] at hp
      dsimp only at hp
      by_cases h0 : 0 < p0.2
      · rw [if_pos h0] at hp
        rcases List.mem_map.mp hp with ⟨q, hq, rfl⟩
        exact ⟨q, hq, rfl⟩
      · rw [if_neg h0] at hp
        exact ⟨p, hp, rfl⟩

/-- A document with no matched query terms scores zero, so a positive score
means at least one matched term. -/
theorem matchedOf_ne_nil_of_docScore_pos (logf : ℚ → ℚ) (idx : BM25Index)
    (qtoks : List String) (id : String)
    (h : 0 < docScore logf idx qtoks id) :
    ¬ matchedOf idx qtoks id = [] := by
  intro hz
  unfold docScore at h
  rw [hz] at h
  exact absurd h (by simp)

/-- An empty corpus yields no candidates. -/
theorem searchCandidates_nil (qtoks : List String) :
    searchCandidates [] qtoks = [] := by
  unfold searchCandidates
  have h : qtoks.flatMap (fun t => postingIds [] t) = [] := by
    induction qtoks with
    | nil => rfl
    | cons t ts ih => rw [List.flatMap_cons, ih]; rfl
  rw [h]
  rfl

/-- The output of `BM25Index.search` is sorted by score, non-increasing
(for any index state: truncation keeps the sort, and normalization divides
by a positive pivot). -/
theorem search_sorted (logf : ℚ → ℚ) (idx : BM25Index) (query : String)
    (topK : ℕ) :
    (search logf idx query topK).Pairwise
      (fun r1 r2 => r2.score ≤ r1.score) := by
  simp only [search]
  by_cases h1 : (tokenize query).isEmpty = true
  · rw [if_pos h1]
    exact List.Pairwise.nil
  · rw [if_neg h1]
    by_cases h2 : (searchCandidates idx.docs (tokenize query)).isEmpty = true
    · rw [if_pos h2]
      exact List.Pairwise.nil
    · rw [if_neg h2]
      rw [List.pairwise_map]
      have hranked : (rankedList logf idx (tokenize query) topK).Pairwise
          (fun p q => q.2 ≤ p.2) :=
        List.Pairwise.sublist (List.take_sublist _ _) (sortPairsDesc_sorted _)
      unfold normalizeRanked
      cases hh : (rankedList logf idx (tokenize query) topK).head? with
      | none => exact hranked
      | some p0 =>
          dsimp only
          by_cases h0 : 0 < p0.2
          · rw [if_pos h0, List.pairwise_map]
            exact hranked.imp
              (fun hab => (div_le_div_iff_of_pos_right h0).mpr hab)
          · rw [if_neg h0]
            exact hranked

/-- Every result of `BM25Index.search` matched at least one query term
(for any index state: only positive scores are kept, and a document with no
matched terms scores zero). -/
theorem search_matched_ne_nil (logf : ℚ → ℚ) (idx : BM25Index)
    (query : String) (topK : ℕ) (r : KeywordSearchResult)
    (hr : r ∈ search logf idx query topK) :
    ¬ r.matched_terms = [] := by
  simp only [search] at hr
  by_cases h1 : (tokenize query).isEmpty = true
  · rw [if_pos h1] at hr
    cases hr
  · rw [if_neg h1] at hr
    by_cases h2 : (searchCandidates idx.docs (tokenize query)).isEmpty = true
    · rw [if_pos h2] at hr
      cases hr
    · rw [if_neg h2] at hr
      rcases List.mem_map.mp hr with ⟨p, hp, rfl⟩
      obtain ⟨q, hq, hpq⟩ := mem_normalizeRanked _ p hp
      have hq2 : q ∈ scoredList logf idx (tokenize query) :=
        (sortPairsDesc_perm _).subset (List.take_subset _ _ hq)
      obtain ⟨_, hq4, hq5⟩ := mem_scoredList _ _ _ q hq2
      have hds : 0 < docScore logf idx (tokenize query) q.1 := hq4 ▸ hq5
      simp only
      rw [hpq]
      exact matchedOf_ne_nil_of_docScore_pos _ _ _ _ hds

end BM25

open BM25 in
/-- C4: against an index built by one bulk load (the spec's one-shot index
build), with the BM25 parameters in range and `math.log` positive on
`(1, ∞)` as `ln` is: the search output is sorted by non-increasing score
and every returned candidate matched at least one query term (both hold
for any index state); a query with no recognized terms, or an empty index,
yields `[]` rather than an error; and when the query has tokens matching at
least one indexed document and `top_k > 0`, the result is non-empty with
the top normalized score exactly 1. -/
theorem C4_bm25_search_contract (logf : ℚ → ℚ) (k1 b : ℚ)
    (batch : List BM25Doc) (query : String) (topK : ℕ)
    (hk1 : 0 ≤ k1) (hb0 : 0 ≤ b) (hb1 : b ≤ 1)
    (hlog : ∀ x : ℚ, 1 < x → 0 < logf x) :
    ((search logf (add_documents (BM25Index.init k1 b) batch) query
        topK).Pairwise (fun r1 r2 => r2.score ≤ r1.score))
    ∧ (∀ r ∈ search logf (add_documents (BM25Index.init k1 b) batch) query
        topK, ¬ r.matched_terms = [])
    ∧ (tokenize query = [] →
        search logf (add_documents (BM25Index.init k1 b) batch) query topK = [])
    ∧ (batch = [] →
        search logf (add_documents (BM25Index.init k1 b) batch) query topK = [])
    ∧ (¬ searchCandidates batch (tokenize query) = [] → 0 < topK →
        ¬ search logf (add_documents (BM25Index.init k1 b) batch) query
            topK = []
        ∧ (search logf (add_documents (BM25Index.init k1 b) batch) query
            topK).head?.map (fun r => r.score) = some 1) := by
  refine ⟨search_sorted logf _ query topK,
    fun r hr => search_matched_ne_nil logf _ query topK r hr, ?_, ?_, ?_⟩
  · intro hq
    simp only [search]
    rw [hq]
    simp
  · intro hb
    subst hb
    simp only [search]
    by_cases h1 : (tokenize query).isEmpty = true
    · rw [if_pos h1]
    · rw [if_neg h1]
      have hd : (add_documents (BM25Index.init k1 b) []).docs = [] := rfl
      rw [hd, searchCandidates_nil]
      simp
  · intro hcand htop
    have hq : ¬ (tokenize query).isEmpty = true := by
      intro h
      rw [List.isEmpty_iff] at h
      apply hcand
      rw [h]
      rfl
    have hpos : ∀ id ∈ searchCandidates batch (tokenize query),
        0 < docScore logf (add_documents (BM25Index.init k1 b) batch)
          (tokenize query) id :=
      fun id hid =>
        docScore_pos logf k1 b batch (tokenize query) id hk1 hb0 hb1 hlog hid
    have hmap : scoredList logf (add_documents (BM25Index.init k1 b) batch)
        (tokenize query) =
        (searchCandidates batch (tokenize query)).map
          (fun id => (id, docScore logf
            (add_documents (BM25Index.init k1 b) batch) (tokenize query) id)) :=
      scoredList_eq_map _ _ _ hpos
    have hscne : ¬ scoredList logf (add_documents (BM25Index.init k1 b) batch)
        (tokenize query) = [] := by
      rw [hmap, List.map_eq_nil_iff]
      exact hcand
    have hsne : ¬ sortPairsDesc (scoredList logf
        (add_documents (BM25Index.init k1 b) batch) (tokenize query)) = [] :=
      fun h => hscne (List.Perm.eq_nil (h ▸ (sortPairsDesc_perm _).symm))
    have hrne : ¬ rankedList logf (add_documents (BM25Index.init k1 b) batch)
        (tokenize query) topK = [] := by
      unfold rankedList
      rw [List.take_eq_nil_iff]
      push_neg
      exact ⟨Nat.pos_iff_ne_zero.mp htop, hsne⟩
    obtain ⟨p, hp⟩ : ∃ p, (rankedList logf
        (add_documents (BM25Index.init k1 b) batch) (tokenize query)
          topK).head? = some p := by
      cases hh : (rankedList logf (add_documents (BM25Index.init k1 b) batch)
          (tokenize query) topK).head? with
      | none => exact absurd (List.head?_eq_none_iff.mp hh) hrne
      | some p => exact ⟨p, rfl⟩
    have hpmem : p ∈ rankedList logf
        (add_documents (BM25Index.init k1 b) batch) (tokenize query) topK :=
      List.mem_of_mem_head? (Option.mem_def.mpr hp)
    have hpsc : p ∈ scoredList logf
        (add_documents (BM25Index.init k1 b) batch) (tokenize query) :=
      (sortPairsDesc_perm _).subset (List.take_subset _ _ hpmem)
    have hp2 : 0 < p.2 := (mem_scoredList _ _ _ p hpsc).2.2
    have hcne : ¬ (searchCandidates (add_documents
        (BM25Index.init k1 b) batch).docs (tokenize query)).isEmpty = true := by
      rw [List.isEmpty_iff]
      exact hcand
    constructor
    · simp only [search]
      rw [if_neg hq, if_neg hcne]
      unfold normalizeRanked
      rw [hp]
      dsimp only
      rw [if_pos hp2, List.map_eq_nil_iff, List.map_eq_nil_iff]
      exact hrne
    · simp only [search]
      rw [if_neg hq, if_neg hcne]
      unfold normalizeRanked
      rw [hp]
      dsimp only
      rw [if_pos hp2]
      rw [List.head?_map, List.head?_map, hp]
      simp only [Option.map_some']
      rw [div_self (ne_of_gt hp2)]

open BM25 in
/-- Witness for C4: the two-chunk index `{c1: "hello world",
c2: "hello there friend"}` queried with "hello world", `top_k = 10`,
default parameters `k1 = 1.5`, `b = 0.75`, and the positive-on-`(1, ∞)`
model `logf x = x - 1` of `math.log`. -/
theorem C4_bm25_search_contract_witness :
    ((0 : ℚ) ≤ 3/2 ∧ (0 : ℚ) ≤ 3/4 ∧ (3 : ℚ)/4 ≤ 1
      ∧ ¬ searchCandidates [bm25docA, bm25docB] (tokenize "hello world") = []
      ∧ 0 < 10)
    ∧ ((search (fun x => x - 1)
          (add_documents (BM25Index.init (3/2) (3/4)) [bm25docA, bm25docB])
          "hello world" 10).Pairwise (fun r1 r2 => r2.score ≤ r1.score)
      ∧ ¬ search (fun x => x - 1)
          (add_documents (BM25Index.init (3/2) (3/4)) [bm25docA, bm25docB])
          "hello world" 10 = []
      ∧ (search (fun x => x - 1)
          (add_documents (BM25Index.init (3/2) (3/4)) [bm25docA, bm25docB])
          "hello world" 10).head?.map (fun r => r.score) = some 1) := by
  have h := C4_bm25_search_contract (fun x => x - 1) (3/2) (3/4)
    [bm25docA, bm25docB] "hello world" 10
    (by with_unfolding_all decide) (by with_unfolding_all decide)
    (by with_unfolding_all decide)
    (fun x hx => by
      have hgt : (0 : ℚ) < x - 1 := by linarith
      exact hgt)
  have hcand : ¬ searchCandidates [bm25docA, bm25docB]
      (tokenize "hello world") = [] := by with_unfolding_all decide
  exact ⟨⟨by with_unfolding_all decide, by with_unfolding_all decide,
    by with_unfolding_all decide, hcand, by decide⟩,
    h.1, (h.2.2.2.2 hcand (by decide)).1, (h.2.2.2.2 hcand (by decide)).2⟩

end DevMind
